import Mathlib

/-!
Verification of the `mmrs` library (`src/lib.rs`): a minimal Mattermost
incoming-webhook client.  The embedding below translates, from the source:

* the error enum `MMRSError` with its two variants and `Display` impl;
* the payload struct `MMBody` (eight `Option<String>` fields, each carrying
  `#[serde(skip_serializing_if = "Option::is_none")]`), its constructor
  `MMBody::new` and its serializer `MMBody::to_json`
  (`serde_json::to_string`), modelled down to serde_json's character-level
  string escaping;
* the derived `Deserialize` instance together with `serde_json`'s parser
  (restricted to the whitespace-free object grammar that `to_string` emits);
* the dispatcher `send_message`, with the HTTP transport
  (`reqwest::Client::new().post(uri).body(body).send().await`) made an
  explicit functional parameter: it either completes with a response
  (carrying a status code) or fails with a transport error.
-/

/-- JSON values occurring in the serialization of `MMBody`: each field value
is a JSON string, and `null` is what serde would emit for a `None` field in
the absence of `skip_serializing_if` (the derived serializer here never
emits it). -/
inductive JValue where
  | null : JValue
  | str : String → JValue
deriving DecidableEq, Repr

/-- `MMRSError` from `src/lib.rs`: the two error variants, each carrying the
underlying library's error rendered as its display detail. -/
inductive MMRSError where
  | BadJSONData (e : String) : MMRSError
  | HTTPRequestError (e : String) : MMRSError
deriving DecidableEq, Repr

/-- The `fmt::Display` impl for `MMRSError` in `src/lib.rs`. -/
def MMRSError.display : MMRSError → String
  | .BadJSONData e => "Error writing to JSON string: " ++ e
  | .HTTPRequestError e => "Error while sending HTTP POST: " ++ e

/-- The struct `MMBody` from `src/lib.rs`: eight optional string fields in
declaration order.  The Rust field `r#type` is named `message_type` here
(Lean-side name only); its wire key is `"type"`, as in the source. -/
structure MMBody where
  text : Option String
  channel : Option String
  username : Option String
  icon_url : Option String
  icon_emoji : Option String
  attachments : Option String
  message_type : Option String
  props : Option String
deriving DecidableEq, Repr

/-- `MMBody::new()` from `src/lib.rs`: every field `None`. -/
def MMBody.new : MMBody :=
  { text := none, channel := none, username := none, icon_url := none,
    icon_emoji := none, attachments := none, message_type := none,
    props := none }

/-- Lower-case hex digit, as in serde_json's `HEX_DIGITS` table. -/
def hexDigit (n : Nat) : Char :=
  "0123456789abcdef".toList.getD n '0'

/-- serde_json's escaping of a single character inside a JSON string
(`serde_json::ser`): `"` and `\` get a backslash escape, control characters
below `0x20` get the short escapes `\b \t \n \f \r` or a `\u00XX` escape,
and every other character passes through unchanged. -/
def escapeChar (c : Char) : List Char :=
  if c = '"' then ['\\', '"']
  else if c = '\\' then ['\\', '\\']
  else if c.toNat < 0x20 then
    if c.toNat = 0x08 then ['\\', 'b']
    else if c.toNat = 0x09 then ['\\', 't']
    else if c.toNat = 0x0A then ['\\', 'n']
    else if c.toNat = 0x0C then ['\\', 'f']
    else if c.toNat = 0x0D then ['\\', 'r']
    else ['\\', 'u', '0', '0', hexDigit (c.toNat / 16), hexDigit (c.toNat % 16)]
  else [c]

/-- serde_json's escaped body of a JSON string literal. -/
def escapeString (s : String) : List Char :=
  s.data.flatMap escapeChar

/-- A JSON string literal: quote, escaped body, quote. -/
def renderStringLit (s : String) : List Char :=
  '"' :: escapeString s ++ ['"']

/-- Compact rendering of a `JValue`, as `serde_json::to_string` emits it. -/
def JValue.renderChars : JValue → List Char
  | .null => ['n', 'u', 'l', 'l']
  | .str s => renderStringLit s

/-- One `"key":value` object member. -/
def renderMember (p : String × JValue) : List Char :=
  renderStringLit p.1 ++ ':' :: p.2.renderChars

/-- Compact rendering of a JSON object: `{`, comma-separated members, `}` —
no whitespace anywhere, as `serde_json::to_string` produces. -/
def renderObjChars (es : List (String × JValue)) : List Char :=
  '{' :: List.intercalate [','] (es.map renderMember) ++ ['}']

/-- The contribution of one field to the serialized object: the derived
`Serialize` impl with `#[serde(skip_serializing_if = "Option::is_none")]`
emits `key: value` for `Some` and nothing at all for `None`. -/
def optEntry (key : String) : Option String → List (String × JValue)
  | some v => [(key, .str v)]
  | none => []

/-- The object members `MMBody`'s derived `Serialize` impl emits, in field
declaration order; the `r#type` field serializes under the wire key
`"type"`. -/
def MMBody.entries (b : MMBody) : List (String × JValue) :=
  optEntry "text" b.text ++ optEntry "channel" b.channel ++
  optEntry "username" b.username ++ optEntry "icon_url" b.icon_url ++
  optEntry "icon_emoji" b.icon_emoji ++ optEntry "attachments" b.attachments ++
  optEntry "type" b.message_type ++ optEntry "props" b.props

/-- `MMBody::to_json` from `src/lib.rs`:
`json::to_string(&self).map_err(MMRSError::BadJSONData)`.
`serde_json::to_string` on a struct of string-only fields writes into an
in-memory buffer and has no failing path, so the serializer is total and
the `map_err` never fires; the result type still records the error case the
source signature has. -/
def MMBody.to_json (b : MMBody) : Except MMRSError String :=
  .ok ⟨renderObjChars b.entries⟩

/-- The response of the underlying HTTP transport, reduced to what
`send_message` reads from it: `reqwest::Response::status()`. -/
structure HttpResponse where
  status : Nat
deriving DecidableEq, Repr

/-- The HTTP transport underlying `send_message`: given the destination URI
and the request body, `reqwest`'s `send().await` either completes the round
trip with a response or fails with a transport error (rendered detail). -/
def Transport : Type := String → String → Except String HttpResponse

/-- `send_message` from `src/lib.rs`, with the transport explicit:
`Client::new().post(uri).body(body).send().await
  .map_err(MMRSError::HTTPRequestError)?.status()`. -/
def send_message (net : Transport) (uri : String) (body : String) :
    Except MMRSError Nat :=
  match net uri body with
  | .ok resp => .ok resp.status
  | .error e => .error (.HTTPRequestError e)

/-- Value of a hexadecimal digit, as `serde_json`'s `decode_hex_val`. -/
def hexVal (c : Char) : Option Nat :=
  if '0' ≤ c ∧ c ≤ '9' then some (c.toNat - '0'.toNat)
  else if 'a' ≤ c ∧ c ≤ 'f' then some (c.toNat - 'a'.toNat + 10)
  else if 'A' ≤ c ∧ c ≤ 'F' then some (c.toNat - 'A'.toNat + 10)
  else none

/-- The single-character JSON escapes `serde_json`'s string parser accepts
(everything except `\uXXXX`). -/
def simpleEscape (c : Char) : Option Char :=
  if c = '"' then some '"'
  else if c = '\\' then some '\\'
  else if c = '/' then some '/'
  else if c = 'b' then some (Char.ofNat 0x08)
  else if c = 't' then some '\t'
  else if c = 'n' then some '\n'
  else if c = 'f' then some (Char.ofNat 0x0C)
  else if c = 'r' then some '\r'
  else none

/-- `serde_json`'s parse of a JSON string literal body (the opening quote
already consumed): returns the decoded characters and the remaining input.
Raw control characters are rejected, escapes are decoded, and a `\u` escape
must denote a valid scalar value (serde additionally accepts surrogate
pairs, which `to_string` never emits for valid strings). -/
def parseStringBody : List Char → Option (List Char × List Char)
  | [] => none
  | c :: rest =>
    if c = '"' then some ([], rest)
    else if c = '\\' then
      match rest with
      | [] => none
      | e :: rest2 =>
        if e = 'u' then
          match rest2 with
          | h1 :: h2 :: h3 :: h4 :: rest3 =>
            match hexVal h1, hexVal h2, hexVal h3, hexVal h4 with
            | some a, some b, some c2, some d =>
              let n := ((a * 16 + b) * 16 + c2) * 16 + d
              if Nat.isValidChar n then
                (parseStringBody rest3).map (fun p => (Char.ofNat n :: p.1, p.2))
              else none
            | _, _, _, _ => none
          | _ => none
        else
          match simpleEscape e with
          | some c2 => (parseStringBody rest2).map (fun p => (c2 :: p.1, p.2))
          | none => none
    else if c.toNat < 0x20 then none
    else (parseStringBody rest).map (fun p => (c :: p.1, p.2))

/-- Parse of one JSON value of the kinds `MMBody`'s serializer emits as a
member value: a string literal or `null`. -/
def parseValue (l : List Char) : Option (JValue × List Char) :=
  match l with
  | '"' :: rest => (parseStringBody rest).map (fun p => (JValue.str ⟨p.1⟩, p.2))
  | 'n' :: 'u' :: 'l' :: 'l' :: rest => some (JValue.null, rest)
  | _ => none

/-- Parse of the members of a non-empty JSON object (the `{` already
consumed): `"key":value` pairs separated by `,`, closed by `}`.  The fuel
argument is an embedding artifact bounding the recursion; `from_str`
supplies enough for any input. -/
def parseMembers : Nat → List Char → Option (List (String × JValue) × List Char)
  | 0, _ => none
  | fuel + 1, l =>
    match l with
    | '"' :: rest =>
      match parseStringBody rest with
      | none => none
      | some (k, rest1) =>
        match rest1 with
        | ':' :: rest2 =>
          match parseValue rest2 with
          | none => none
          | some (v, rest3) =>
            match rest3 with
            | ',' :: rest4 =>
              match parseMembers fuel rest4 with
              | none => none
              | some (ms, rest5) => some ((⟨k⟩, v) :: ms, rest5)
            | '}' :: rest4 => some ([(⟨k⟩, v)], rest4)
            | _ => none
        | _ => none
    | _ => none

/-- Parse of the top-level JSON object (empty or non-empty), restricted — as
the whole parser is — to the whitespace-free form `to_string` emits. -/
def parseTopObj (l : List Char) : Option (List (String × JValue) × List Char) :=
  match l with
  | '{' :: '}' :: rest => some ([], rest)
  | '{' :: rest => parseMembers rest.length rest
  | _ => none

/-- Deserialization of one `Option<String>` field value: JSON `null` gives
`None`, a JSON string gives `Some`. -/
def deOptField : JValue → Option (Option String)
  | .null => some none
  | .str s => some (some s)

/-- The field slots of the derived `Deserialize` visitor: each starts
unfilled, and filling one twice (a duplicate key) is an error. -/
structure DeState where
  text : Option (Option String)
  channel : Option (Option String)
  username : Option (Option String)
  icon_url : Option (Option String)
  icon_emoji : Option (Option String)
  attachments : Option (Option String)
  message_type : Option (Option String)
  props : Option (Option String)

/-- All slots unfilled. -/
def DeState.init : DeState :=
  { text := none, channel := none, username := none, icon_url := none,
    icon_emoji := none, attachments := none, message_type := none,
    props := none }

/-- The map visit of `MMBody`'s derived `Deserialize` impl: known keys fill
their slot (duplicates are an error), unknown keys are ignored (no
`deny_unknown_fields` on the struct). -/
def visitEntries : List (String × JValue) → DeState → Option DeState
  | [], st => some st
  | (k, v) :: rest, st =>
    if k = "text" then
      match st.text with
      | some _ => none
      | none => (deOptField v).bind fun ov => visitEntries rest { st with text := some ov }
    else if k = "channel" then
      match st.channel with
      | some _ => none
      | none => (deOptField v).bind fun ov => visitEntries rest { st with channel := some ov }
    else if k = "username" then
      match st.username with
      | some _ => none
      | none => (deOptField v).bind fun ov => visitEntries rest { st with username := some ov }
    else if k = "icon_url" then
      match st.icon_url with
      | some _ => none
      | none => (deOptField v).bind fun ov => visitEntries rest { st with icon_url := some ov }
    else if k = "icon_emoji" then
      match st.icon_emoji with
      | some _ => none
      | none => (deOptField v).bind fun ov => visitEntries rest { st with icon_emoji := some ov }
    else if k = "attachments" then
      match st.attachments with
      | some _ => none
      | none => (deOptField v).bind fun ov => visitEntries rest { st with attachments := some ov }
    else if k = "type" then
      match st.message_type with
      | some _ => none
      | none => (deOptField v).bind fun ov => visitEntries rest { st with message_type := some ov }
    else if k = "props" then
      match st.props with
      | some _ => none
      | none => (deOptField v).bind fun ov => visitEntries rest { st with props := some ov }
    else visitEntries rest st

/-- `serde_json::from_str::<MMBody>`: parse the object, require the input
exhausted, run the visitor, and default every unfilled `Option` field to
`None` (serde's behavior for missing `Option` fields). -/
def MMBody.from_str (s : String) : Option MMBody :=
  match parseTopObj s.data with
  | some (entries, []) =>
    (visitEntries entries DeState.init).map fun st =>
      { text := st.text.join, channel := st.channel.join,
        username := st.username.join, icon_url := st.icon_url.join,
        icon_emoji := st.icon_emoji.join, attachments := st.attachments.join,
        message_type := st.message_type.join, props := st.props.join }
  | _ => none

/-- `MMBody`'s wire keys in field declaration order. -/
def declKeys : List String :=
  ["text", "channel", "username", "icon_url", "icon_emoji", "attachments",
   "type", "props"]

/-- The key list of one field block: `[key]` when populated, `[]` when not. -/
theorem optEntry_map_fst (k : String) (o : Option String) :
    (optEntry k o).map Prod.fst = if o.isSome then [k] else [] := by
  cases o <;> rfl

/-- A member emitted by a field block is never `null`-valued. -/
theorem optEntry_ne_null (k : String) (o : Option String) :
    ∀ p ∈ optEntry k o, p.2 ≠ JValue.null := by
  cases o <;> simp [optEntry]

/-- `C2`: `MMBody::new()` has every field unset, and serializing it yields
exactly the string `"{}"`. -/
theorem new_all_unset_to_json_empty :
    MMBody.new.text = none ∧ MMBody.new.channel = none ∧
    MMBody.new.username = none ∧ MMBody.new.icon_url = none ∧
    MMBody.new.icon_emoji = none ∧ MMBody.new.attachments = none ∧
    MMBody.new.message_type = none ∧ MMBody.new.props = none ∧
    MMBody.new.to_json = Except.ok "{}" := by
  exact ⟨rfl, rfl, rfl, rfl, rfl, rfl, rfl, rfl, rfl⟩

/-- `C10`: `to_json` always succeeds — the `BadJSONData` branch of the
serializer is unreachable for every payload. -/
theorem to_json_total (b : MMBody) : ∃ s, b.to_json = Except.ok s :=
  ⟨_, rfl⟩

/-- `C7`: serialization is deterministic and pure — two payloads with
identical field assignments serialize to byte-identical strings (the
embedding of `to_json` is a function of the field values alone). -/
theorem to_json_deterministic (b₁ b₂ : MMBody)
    (ht : b₁.text = b₂.text) (hc : b₁.channel = b₂.channel)
    (hu : b₁.username = b₂.username) (hiu : b₁.icon_url = b₂.icon_url)
    (hie : b₁.icon_emoji = b₂.icon_emoji)
    (ha : b₁.attachments = b₂.attachments)
    (hm : b₁.message_type = b₂.message_type) (hp : b₁.props = b₂.props) :
    b₁.to_json = b₂.to_json := by
  cases b₁
  cases b₂
  simp only at ht hc hu hiu hie ha hm hp
  subst ht hc hu hiu hie ha hm hp
  rfl

/-- Witness for `C7` at a concrete pair of payloads. -/
theorem to_json_deterministic_witness :
    ({ MMBody.new with text := some "hi" } : MMBody).to_json
      = (⟨some "hi", none, none, none, none, none, none, none⟩ : MMBody).to_json :=
  to_json_deterministic _ _ rfl rfl rfl rfl rfl rfl rfl rfl

/-- `C4`: whenever the transport completes the round trip, `send_message`
returns the response's status code unchanged as a success value — whatever
the status is, including non-2xx/3xx codes such as 404. -/
theorem send_message_status_passthrough (net : Transport) (uri body : String)
    (resp : HttpResponse) (h : net uri body = Except.ok resp) :
    send_message net uri body = Except.ok resp.status := by
  simp [send_message, h]

/-- A transport that always completes with status 404. -/
def net404 : Transport := fun _ _ => Except.ok ⟨404⟩

/-- Witness for `C4`: a completed round trip with server status 404 is
returned as the success value 404. -/
theorem send_message_status_passthrough_witness :
    send_message net404 "https://example.invalid/hook" "{}" = Except.ok 404 :=
  send_message_status_passthrough net404 "https://example.invalid/hook" "{}"
    ⟨404⟩ rfl

/-- `C5`: `send_message` fails with `HTTPRequestError` carrying the
transport's error detail exactly when the round trip cannot be completed,
and it returns no other error kind. -/
theorem send_message_transport_failure (net : Transport) (uri body : String) :
    (∀ d, net uri body = Except.error d →
      send_message net uri body = Except.error (MMRSError.HTTPRequestError d)) ∧
    (∀ e, send_message net uri body = Except.error e →
      ∃ d, e = MMRSError.HTTPRequestError d ∧ net uri body = Except.error d) := by
  constructor
  · intro d hd
    simp [send_message, hd]
  · intro e he
    cases hn : net uri body with
    | ok r => simp [send_message, hn] at he
    | error d =>
      have hs : send_message net uri body
          = Except.error (MMRSError.HTTPRequestError d) := by
        simp [send_message, hn]
      rw [hs] at he
      exact ⟨d, (Except.error.inj he).symm, rfl⟩

/-- A transport that always fails (connection refused). -/
def netRefused : Transport := fun _ _ => Except.error "connection refused"

/-- Witness for `C5`: an unreachable destination yields `HTTPRequestError`
with the transport detail, not a status code. -/
theorem send_message_transport_failure_witness :
    send_message netRefused "http://localhost:1/hook" "{}"
      = Except.error (MMRSError.HTTPRequestError "connection refused") :=
  (send_message_transport_failure netRefused "http://localhost:1/hook" "{}").1
    "connection refused" rfl

/-- `C6`: the classified-error type has exactly the two variants
`BadJSONData` and `HTTPRequestError`, each with its human-readable
`Display` rendering, and both `to_json` and `send_message` surface every
outcome as a result value (`ok` or `error`), never otherwise. -/
theorem error_taxonomy :
    (∀ e : MMRSError, (∃ s, e = MMRSError.BadJSONData s) ∨
      (∃ s, e = MMRSError.HTTPRequestError s)) ∧
    (∀ s, (MMRSError.BadJSONData s).display
      = "Error writing to JSON string: " ++ s) ∧
    (∀ s, (MMRSError.HTTPRequestError s).display
      = "Error while sending HTTP POST: " ++ s) ∧
    (∀ b : MMBody, (∃ r, b.to_json = Except.ok r) ∨
      (∃ e, b.to_json = Except.error e)) ∧
    (∀ (net : Transport) (uri body : String),
      (∃ c, send_message net uri body = Except.ok c) ∨
      (∃ e, send_message net uri body = Except.error e)) := by
  refine ⟨?_, fun _ => rfl, fun _ => rfl, ?_, ?_⟩
  · intro e
    cases e with
    | BadJSONData s => exact Or.inl ⟨s, rfl⟩
    | HTTPRequestError s => exact Or.inr ⟨s, rfl⟩
  · intro b
    exact Or.inl ⟨_, rfl⟩
  · intro net uri body
    cases hn : net uri body with
    | ok r => exact Or.inl ⟨r.status, by simp [send_message, hn]⟩
    | error d =>
      exact Or.inr ⟨MMRSError.HTTPRequestError d, by simp [send_message, hn]⟩

/-- `C1`: the serialized object's key list is exactly the populated fields
in declaration order (the `r#type` field under the wire key `"type"`),
unset fields contribute no key, and no key is ever mapped to `null`. -/
theorem to_json_keys_exactly_populated (b : MMBody) :
    b.to_json = Except.ok ⟨renderObjChars b.entries⟩ ∧
    b.entries.map Prod.fst =
      (if b.text.isSome then ["text"] else []) ++
      (if b.channel.isSome then ["channel"] else []) ++
      (if b.username.isSome then ["username"] else []) ++
      (if b.icon_url.isSome then ["icon_url"] else []) ++
      (if b.icon_emoji.isSome then ["icon_emoji"] else []) ++
      (if b.attachments.isSome then ["attachments"] else []) ++
      (if b.message_type.isSome then ["type"] else []) ++
      (if b.props.isSome then ["props"] else []) ∧
    ∀ p ∈ b.entries, p.2 ≠ JValue.null := by
  refine ⟨rfl, ?_, ?_⟩
  · simp [MMBody.entries, optEntry_map_fst, List.append_assoc]
  · intro p hp
    simp only [MMBody.entries, List.mem_append] at hp
    rcases hp with ((((((h | h) | h) | h) | h) | h) | h) | h <;>
      exact optEntry_ne_null _ _ p h

/-- Witness for `C1` at a concrete payload: one populated field, one key,
and its member is not `null`. -/
theorem to_json_keys_exactly_populated_witness :
    ({ MMBody.new with channel := some "town-square" } : MMBody).entries.map
        Prod.fst = ["channel"] ∧
    ∀ p ∈ ({ MMBody.new with channel := some "town-square" } : MMBody).entries,
      p.2 ≠ JValue.null := by
  have h := to_json_keys_exactly_populated
    { MMBody.new with channel := some "town-square" }
  exact ⟨by simpa using h.2.1, h.2.2⟩

/-- A member of a field block carries the block's key and a string value. -/
theorem mem_optEntry_shape (k : String) (o : Option String)
    (p : String × JValue) (hp : p ∈ optEntry k o) :
    p.1 = k ∧ ∃ v, o = some v ∧ p.2 = JValue.str v := by
  cases o with
  | none => simp [optEntry] at hp
  | some v =>
    simp only [optEntry, List.mem_cons, List.not_mem_nil, or_false] at hp
    subst hp
    exact ⟨rfl, v, rfl, rfl⟩

/-- Every member of `b.entries` has its key among the declared wire keys and
a string value. -/
theorem entries_member_shape (b : MMBody) (p : String × JValue)
    (hp : p ∈ b.entries) : p.1 ∈ declKeys ∧ ∃ v, p.2 = JValue.str v := by
  simp only [MMBody.entries, List.mem_append] at hp
  rcases hp with ((((((h | h) | h) | h) | h) | h) | h) | h <;>
    · obtain ⟨hk, v, _, hv⟩ := mem_optEntry_shape _ _ _ h
      exact ⟨by simp [declKeys, hk], v, hv⟩

/-- No declared wire key contains a space. -/
theorem declKeys_no_space : ∀ k ∈ declKeys, ' ' ∉ k.data := by decide

/-- The hex digits are printable non-space characters. -/
theorem hexDigit_printable (m : Nat) :
    0x20 ≤ (hexDigit m).toNat ∧ hexDigit m ≠ ' ' := by
  by_cases h : m < 16
  · interval_cases m <;> exact ⟨by decide, by decide⟩
  · rw [hexDigit, List.getD_eq_default]
    · exact ⟨by decide, by decide⟩
    · simpa using Nat.le_of_not_lt h

/-- Characters emitted by `escapeChar` are never control characters, and a
space in the output can only be a space of the input. -/
theorem escapeChar_printable (a c : Char) (h : c ∈ escapeChar a) :
    0x20 ≤ c.toNat ∧ (c = ' ' → a = ' ') := by
  unfold escapeChar at h
  split_ifs at h with h1 h2 h3 h4 h5 h6 h7 h8 <;>
    simp only [List.mem_cons, List.not_mem_nil, or_false] at h
  · rcases h with h | h <;> subst h <;>
      exact ⟨by decide, fun hc => absurd hc (by decide)⟩
  · rcases h with h | h <;> subst h <;>
      exact ⟨by decide, fun hc => absurd hc (by decide)⟩
  · rcases h with h | h <;> subst h <;>
      exact ⟨by decide, fun hc => absurd hc (by decide)⟩
  · rcases h with h | h <;> subst h <;>
      exact ⟨by decide, fun hc => absurd hc (by decide)⟩
  · rcases h with h | h <;> subst h <;>
      exact ⟨by decide, fun hc => absurd hc (by decide)⟩
  · rcases h with h | h <;> subst h <;>
      exact ⟨by decide, fun hc => absurd hc (by decide)⟩
  · rcases h with h | h <;> subst h <;>
      exact ⟨by decide, fun hc => absurd hc (by decide)⟩
  · rcases h with h | h | h | h | h | h <;> subst h
    · exact ⟨by decide, fun hc => absurd hc (by decide)⟩
    · exact ⟨by decide, fun hc => absurd hc (by decide)⟩
    · exact ⟨by decide, fun hc => absurd hc (by decide)⟩
    · exact ⟨by decide, fun hc => absurd hc (by decide)⟩
    · exact ⟨(hexDigit_printable _).1, fun hc => absurd hc (hexDigit_printable _).2⟩
    · exact ⟨(hexDigit_printable _).1, fun hc => absurd hc (hexDigit_printable _).2⟩
  · subst h
    exact ⟨Nat.le_of_not_lt h3, fun hc => hc⟩

/-- Characters of an escaped string body are printable; a space comes only
from a space of the source string. -/
theorem escapeString_printable (s : String) (c : Char)
    (h : c ∈ escapeString s) :
    0x20 ≤ c.toNat ∧ (c = ' ' → ' ' ∈ s.data) := by
  rw [escapeString, List.mem_flatMap] at h
  obtain ⟨a, ha, hc⟩ := h
  obtain ⟨h1, h2⟩ := escapeChar_printable a c hc
  exact ⟨h1, fun hsp => (h2 hsp) ▸ ha⟩

/-- Characters of a rendered string literal are printable; a space comes
only from the source string. -/
theorem renderStringLit_printable (s : String) (c : Char)
    (h : c ∈ renderStringLit s) :
    0x20 ≤ c.toNat ∧ (c = ' ' → ' ' ∈ s.data) := by
  rw [renderStringLit] at h
  rcases List.mem_cons.1 h with h | h
  · subst h
    exact ⟨by decide, fun hc => absurd hc (by decide)⟩
  · rcases List.mem_append.1 h with h | h
    · exact escapeString_printable s c h
    · simp only [List.mem_cons, List.not_mem_nil, or_false] at h
      subst h
      exact ⟨by decide, fun hc => absurd hc (by decide)⟩

/-- Membership in a comma-intercalation: the comma or one of the pieces. -/
theorem mem_intercalate_comma (xss : List (List Char)) (c : Char)
    (h : c ∈ List.intercalate [','] xss) : c = ',' ∨ ∃ xs ∈ xss, c ∈ xs := by
  induction xss with
  | nil => simp [List.intercalate] at h
  | cons x xss ih =>
    cases xss with
    | nil =>
      right
      refine ⟨x, List.mem_cons_self x _, ?_⟩
      simpa [List.intercalate, List.intersperse] using h
    | cons y t =>
      have hx : List.intercalate [','] (x :: y :: t)
          = x ++ [','] ++ List.intercalate [','] (y :: t) := by
        simp [List.intercalate, List.intersperse]
      rw [hx] at h
      rcases List.mem_append.1 h with h | h
      · rcases List.mem_append.1 h with h | h
        · exact Or.inr ⟨x, List.mem_cons_self x _, h⟩
        · simp only [List.mem_cons, List.not_mem_nil, or_false] at h
          exact Or.inl h
      · rcases ih h with h | ⟨xs, hxs, hc⟩
        · exact Or.inl h
        · exact Or.inr ⟨xs, List.mem_cons_of_mem _ hxs, hc⟩

/-- Every character of the rendered object is printable (`≥ 0x20`, so never
a tab, newline or carriage return), and a space can only come from inside a
populated field's value — there is no whitespace between tokens. -/
theorem renderObjChars_no_whitespace (b : MMBody) (c : Char)
    (h : c ∈ renderObjChars b.entries) :
    0x20 ≤ c.toNat ∧
    (c = ' ' → ∃ k v, (k, JValue.str v) ∈ b.entries ∧ ' ' ∈ v.data) := by
  rw [renderObjChars] at h
  rcases List.mem_cons.1 h with h | h
  · subst h
    exact ⟨by decide, fun hc => absurd hc (by decide)⟩
  rcases List.mem_append.1 h with h | h
  · rcases mem_intercalate_comma _ c h with h | ⟨xs, hxs, hc⟩
    · subst h
      exact ⟨by decide, fun hc => absurd hc (by decide)⟩
    rcases List.mem_map.1 hxs with ⟨p, hp, rfl⟩
    obtain ⟨hk, v, hv⟩ := entries_member_shape b p hp
    rw [renderMember, hv] at hc
    rcases List.mem_append.1 hc with hc | hc
    · obtain ⟨h1, h2⟩ := renderStringLit_printable p.1 c hc
      exact ⟨h1, fun hsp => absurd (h2 hsp) (declKeys_no_space p.1 hk)⟩
    rcases List.mem_cons.1 hc with hc | hc
    · subst hc
      exact ⟨by decide, fun hc => absurd hc (by decide)⟩
    obtain ⟨h1, h2⟩ := renderStringLit_printable v c hc
    refine ⟨h1, fun hsp => ⟨p.1, v, ?_, h2 hsp⟩⟩
    have hpv : p = (p.1, JValue.str v) := by
      cases p
      simp only at hv
      rw [hv]
    exact hpv ▸ hp
  · simp only [List.mem_cons, List.not_mem_nil, or_false] at h
    subst h
    exact ⟨by decide, fun hc => absurd hc (by decide)⟩

/-- A field block's key list is a sublist of the singleton of its key. -/
theorem optEntry_keys_sublist (k : String) (o : Option String) :
    List.Sublist ((optEntry k o).map Prod.fst) [k] := by
  cases o <;> simp [optEntry]

/-- The serialized key list respects field declaration order: it is a
sublist of `declKeys`. -/
theorem entries_keys_sublist (b : MMBody) :
    List.Sublist (b.entries.map Prod.fst) declKeys := by
  have hd : declKeys = ((((((["text"] ++ ["channel"]) ++ ["username"]) ++
      ["icon_url"]) ++ ["icon_emoji"]) ++ ["attachments"]) ++ ["type"]) ++
      ["props"] := rfl
  rw [hd]
  simp only [MMBody.entries, List.map_append]
  exact (((((((optEntry_keys_sublist "text" b.text).append
    (optEntry_keys_sublist "channel" b.channel)).append
    (optEntry_keys_sublist "username" b.username)).append
    (optEntry_keys_sublist "icon_url" b.icon_url)).append
    (optEntry_keys_sublist "icon_emoji" b.icon_emoji)).append
    (optEntry_keys_sublist "attachments" b.attachments)).append
    (optEntry_keys_sublist "type" b.message_type)).append
    (optEntry_keys_sublist "props" b.props)

/-- `C3`: serializing a payload whose only populated field is
`text = "Hello, world!"` yields exactly `{"text":"Hello, world!"}`; in
general the key order follows field declaration order and the output is
compact — no control characters at all, and a space only inside a populated
field's value, never between tokens. -/
theorem to_json_compact_ordered :
    (⟨some "Hello, world!", none, none, none, none, none, none, none⟩ :
        MMBody).to_json = Except.ok "\x7b\"text\":\"Hello, world!\"\x7d" ∧
    (∀ b : MMBody, List.Sublist (b.entries.map Prod.fst) declKeys) ∧
    (∀ (b : MMBody) (c : Char), c ∈ renderObjChars b.entries →
      0x20 ≤ c.toNat ∧
      (c = ' ' → ∃ k v, (k, JValue.str v) ∈ b.entries ∧ ' ' ∈ v.data)) :=
  ⟨rfl, entries_keys_sublist, renderObjChars_no_whitespace⟩

/-- Witness for `C3` at a concrete character of a concrete payload's
output. -/
theorem to_json_compact_ordered_witness :
    0x20 ≤ '{'.toNat ∧
    ('{' = ' ' → ∃ k v,
      (k, JValue.str v) ∈ MMBody.new.entries ∧ ' ' ∈ v.data) :=
  to_json_compact_ordered.2.2 MMBody.new '{' (by decide)

/-- `hexVal` inverts `hexDigit` on digit values. -/
theorem hexVal_hexDigit (m : Nat) (h : m < 16) : hexVal (hexDigit m) = some m := by
  interval_cases m <;> decide

/-- The string parser inverts the escaper: parsing an escaped character list
followed by the closing quote recovers the characters and the remainder. -/
theorem parseStringBody_escape (l : List Char) :
    ∀ rest, parseStringBody (l.flatMap escapeChar ++ '"' :: rest) = some (l, rest) := by
  induction l with
  | nil =>
    intro rest
    rw [parseStringBody.eq_def]
    simp
  | cons c l ih =>
    intro rest
    by_cases hq : c = '"'
    · subst hq
      rw [show ('"' :: l).flatMap escapeChar ++ '"' :: rest
            = '\\' :: '"' :: (l.flatMap escapeChar ++ '"' :: rest) by
          simp [escapeChar]]
      rw [parseStringBody.eq_def]
      simp [simpleEscape, ih rest]
    by_cases hbs : c = '\\'
    · subst hbs
      rw [show ('\\' :: l).flatMap escapeChar ++ '"' :: rest
            = '\\' :: '\\' :: (l.flatMap escapeChar ++ '"' :: rest) by
          simp [escapeChar]]
      rw [parseStringBody.eq_def]
      simp [simpleEscape, ih rest]
    by_cases hctl : c.toNat < 0x20
    · by_cases h8 : c.toNat = 0x08
      · have hc : Char.ofNat 0x08 = c := by rw [← h8, Char.ofNat_toNat]
        rw [show (c :: l).flatMap escapeChar ++ '"' :: rest
              = '\\' :: 'b' :: (l.flatMap escapeChar ++ '"' :: rest) by
            simp [escapeChar, hq, hbs, hctl, h8]]
        rw [parseStringBody.eq_def]
        simp [simpleEscape, ih rest]
        exact hc
      by_cases h9 : c.toNat = 0x09
      · have hc : Char.ofNat 0x09 = c := by rw [← h9, Char.ofNat_toNat]
        have ht : '\t' = c := hc
        rw [show (c :: l).flatMap escapeChar ++ '"' :: rest
              = '\\' :: 't' :: (l.flatMap escapeChar ++ '"' :: rest) by
            simp [escapeChar, hq, hbs, hctl, h8, h9]]
        rw [parseStringBody.eq_def]
        simp [simpleEscape, ih rest]
        exact ht
      by_cases h10 : c.toNat = 0x0A
      · have hc : Char.ofNat 0x0A = c := by rw [← h10, Char.ofNat_toNat]
        have ht : '\n' = c := hc
        rw [show (c :: l).flatMap escapeChar ++ '"' :: rest
              = '\\' :: 'n' :: (l.flatMap escapeChar ++ '"' :: rest) by
            simp [escapeChar, hq, hbs, hctl, h8, h9, h10]]
        rw [parseStringBody.eq_def]
        simp [simpleEscape, ih rest]
        exact ht
      by_cases h12 : c.toNat = 0x0C
      · have hc : Char.ofNat 0x0C = c := by rw [← h12, Char.ofNat_toNat]
        rw [show (c :: l).flatMap escapeChar ++ '"' :: rest
              = '\\' :: 'f' :: (l.flatMap escapeChar ++ '"' :: rest) by
            simp [escapeChar, hq, hbs, hctl, h8, h9, h10, h12]]
        rw [parseStringBody.eq_def]
        simp [simpleEscape, ih rest]
        exact hc
      by_cases h13 : c.toNat = 0x0D
      · have hc : Char.ofNat 0x0D = c := by rw [← h13, Char.ofNat_toNat]
        have ht : '\r' = c := hc
        rw [show (c :: l).flatMap escapeChar ++ '"' :: rest
              = '\\' :: 'r' :: (l.flatMap escapeChar ++ '"' :: rest) by
            simp [escapeChar, hq, hbs, hctl, h8, h9, h10, h12, h13]]
        rw [parseStringBody.eq_def]
        simp [simpleEscape, ih rest]
        exact ht
      · have hdiv : c.toNat / 16 < 16 := by omega
        have hmod : c.toNat % 16 < 16 := Nat.mod_lt _ (by norm_num)
        have hv0 : hexVal '0' = some 0 := by decide
        have hn : ((0 * 16 + 0) * 16 + c.toNat / 16) * 16 + c.toNat % 16 = c.toNat := by
          omega
        have hvalid : Nat.isValidChar c.toNat := Or.inl (by omega)
        rw [show (c :: l).flatMap escapeChar ++ '"' :: rest
              = '\\' :: 'u' :: '0' :: '0' :: hexDigit (c.toNat / 16) ::
                hexDigit (c.toNat % 16) :: (l.flatMap escapeChar ++ '"' :: rest) by
            simp [escapeChar, hq, hbs, hctl, h8, h9, h10, h12, h13]]
        rw [parseStringBody.eq_def]
        simp only [reduceIte, hv0, hexVal_hexDigit _ hdiv, hexVal_hexDigit _ hmod]
        rw [show ((0 * 16 + 0) * 16 + c.toNat / 16) * 16 + c.toNat % 16 = c.toNat from hn]
        simp [hvalid, ih rest, Char.ofNat_toNat]
    · rw [show (c :: l).flatMap escapeChar ++ '"' :: rest
            = c :: (l.flatMap escapeChar ++ '"' :: rest) by
          simp [escapeChar, hq, hbs, hctl]]
      rw [parseStringBody.eq_def]
      simp [hq, hbs, hctl, ih rest]

/-- `parseStringBody` inverts `escapeString`. -/
theorem parseStringBody_escapeString (s : String) (rest : List Char) :
    parseStringBody (escapeString s ++ '"' :: rest) = some (s.data, rest) :=
  parseStringBody_escape s.data rest

/-- The value parser inverts the value renderer. -/
theorem parseValue_render (v : JValue) (rest : List Char) :
    parseValue (v.renderChars ++ rest) = some (v, rest) := by
  cases v with
  | null => simp [JValue.renderChars, parseValue]
  | str s =>
    have h : (JValue.str s).renderChars ++ rest
        = '"' :: (escapeString s ++ '"' :: rest) := by
      simp [JValue.renderChars, renderStringLit]
    rw [h]
    cases s with
    | mk data =>
      simp [parseValue, parseStringBody_escapeString]

/-- A rendered member starts with the opening quote of its key. -/
theorem renderMember_eq_cons (p : String × JValue) :
    renderMember p = '"' :: (escapeString p.1 ++ '"' :: ':' :: p.2.renderChars) := by
  simp [renderMember, renderStringLit]

/-- The member parser inverts the member renderer, given enough fuel. -/
theorem parseMembers_render (ps : List (String × JValue)) :
    ∀ (fuel : Nat) (rest : List Char), ps ≠ [] → ps.length ≤ fuel →
      parseMembers fuel (List.intercalate [','] (ps.map renderMember) ++ '}' :: rest)
        = some (ps, rest) := by
  induction ps with
  | nil => intro fuel rest hne _; exact absurd rfl hne
  | cons kv ps ih =>
    intro fuel rest _ hlen
    obtain ⟨k, v⟩ := kv
    cases fuel with
    | zero => simp at hlen
    | succ f =>
      cases ps with
      | nil =>
        have hin : List.intercalate [','] ([(k, v)].map renderMember) ++ '}' :: rest
            = '"' :: (escapeString k ++ '"' :: ':' ::
                (v.renderChars ++ '}' :: rest)) := by
          simp [List.intercalate, List.intersperse, renderMember_eq_cons]
        rw [hin, parseMembers.eq_def]
        simp only []
        cases k with
        | mk kdata =>
          simp [parseStringBody_escapeString, parseValue_render]
      | cons kv2 ps2 =>
        have hin : List.intercalate [','] (((k, v) :: kv2 :: ps2).map renderMember)
              ++ '}' :: rest
            = '"' :: (escapeString k ++ '"' :: ':' ::
                (v.renderChars ++ ',' ::
                  (List.intercalate [','] ((kv2 :: ps2).map renderMember)
                    ++ '}' :: rest))) := by
          have h1 : List.intercalate [','] (((k, v) :: kv2 :: ps2).map renderMember)
              = renderMember (k, v) ++ [','] ++
                List.intercalate [','] ((kv2 :: ps2).map renderMember) := by
            simp [List.intercalate, List.intersperse]
          rw [h1, renderMember_eq_cons]
          simp
        rw [hin, parseMembers.eq_def]
        simp only []
        cases k with
        | mk kdata =>
          have hih := ih f rest (by simp) (by simp at hlen ⊢; omega)
          simp only [List.map_cons] at hih
          simp [parseStringBody_escapeString, parseValue_render, hih]

/-- The member count is bounded by the rendered length: the fuel
`parseTopObj` passes suffices. -/
theorem length_le_intercalate (ps : List (String × JValue)) :
    ps.length ≤ (List.intercalate [','] (ps.map renderMember)).length + 1 := by
  induction ps with
  | nil => simp
  | cons kv ps ih =>
    cases ps with
    | nil => simp
    | cons kv2 ps2 =>
      have h1 : List.intercalate [','] ((kv :: kv2 :: ps2).map renderMember)
          = renderMember kv ++ [','] ++
            List.intercalate [','] ((kv2 :: ps2).map renderMember) := by
        simp [List.intercalate, List.intersperse]
      rw [h1]
      simp only [List.length_append, List.length_cons] at ih ⊢
      omega

/-- The object parser inverts the object renderer. -/
theorem parseTopObj_render (es : List (String × JValue)) :
    parseTopObj (renderObjChars es) = some (es, []) := by
  cases es with
  | nil => rfl
  | cons e es' =>
    obtain ⟨t, ht⟩ : ∃ t,
        List.intercalate [','] ((e :: es').map renderMember) ++ ['}']
          = '"' :: t := by
      cases es' with
      | nil =>
        refine ⟨escapeString e.1 ++ '"' :: ':' :: (e.2.renderChars ++ ['}']), ?_⟩
        simp [List.intercalate, List.intersperse, renderMember_eq_cons]
      | cons e2 t' =>
        refine ⟨escapeString e.1 ++ '"' :: ':' :: (e.2.renderChars ++ ',' ::
          (List.intercalate [','] ((e2 :: t').map renderMember) ++ ['}'])), ?_⟩
        have h1 : List.intercalate [','] ((e :: e2 :: t').map renderMember)
            = renderMember e ++ [','] ++
              List.intercalate [','] ((e2 :: t').map renderMember) := by
          simp [List.intercalate, List.intersperse]
        rw [h1, renderMember_eq_cons]
        simp
    have hstep : parseTopObj (renderObjChars (e :: es'))
        = parseMembers ('"' :: t).length ('"' :: t) := by
      rw [renderObjChars]
      simp only [List.cons_append]
      rw [ht]
      rfl
    rw [hstep, ← ht]
    have hlen : (e :: es').length
        ≤ (List.intercalate [','] ((e :: es').map renderMember) ++ ['}']).length := by
      have := length_le_intercalate (e :: es')
      simp only [List.length_append, List.length_cons, List.length_nil] at this ⊢
      omega
    have := parseMembers_render (e :: es')
      ((List.intercalate [','] ((e :: es').map renderMember) ++ ['}']).length)
      [] (by simp) hlen
    simpa using this

/-- `C9`: round trip — deserializing the JSON string produced by `to_json`
(via the derived `Deserialize` instance) recovers the original payload;
serialization loses no information. -/
theorem from_str_to_json_roundtrip (b : MMBody) :
    ∃ s, b.to_json = Except.ok s ∧ MMBody.from_str s = some b := by
  refine ⟨⟨renderObjChars b.entries⟩, rfl, ?_⟩
  show MMBody.from_str ⟨renderObjChars b.entries⟩ = some b
  rw [MMBody.from_str]
  rw [show (⟨renderObjChars b.entries⟩ : String).data
      = renderObjChars b.entries from rfl]
  rw [parseTopObj_render b.entries]
  obtain ⟨t, c, u, iu, ie, a, mt, p⟩ := b
  cases t <;> cases c <;> cases u <;> cases iu <;> cases ie <;> cases a <;>
    cases mt <;> cases p <;> rfl
